import Mathlib

/-!
Shallow embedding of the training-module attempt lifecycle of vision-hub
(`src/app/routes.py`: `training_dashboard`, `take_training_module`) over the
data model of `src/app/models.py`.

Modelling conventions:
* one (user, module) pair at a time: every DB query in the routes filters by
  `user_id` and `training_module_id`, so the per-pair progress rows are the
  whole relevant state; the list is kept in id order, its last element being
  the row returned by `order_by(id.desc()).first()`;
* timestamps (`datetime.now(timezone.utc)`) are abstract `Nat` instants
  passed in as `now`; freshly assigned primary keys are passed in as `fresh`;
* Python float comparisons `score / total >= 0.5` and `< 0.5` are modelled
  exactly as the rational comparisons `total ≤ 2 * score` and
  `2 * score < total` (exact for the magnitudes involved);
* the `ZeroDivisionError` raised by `correct_answers / total_questions` when
  a module has no questions aborts the request before `db.session.commit()`,
  so the whole transaction is discarded: `recordAnswers` returns `none` and
  callers keep the prior state.
-/

namespace VisionHub

/-- `Option` row of `models.py` (named `QOption` here because `Option` is
taken by Lean's core type). -/
structure QOption where
  id : Nat
  question_id : Nat
  is_correct : Bool
deriving DecidableEq, Repr

/-- `Question` row; only the primary key is consulted by the routes. -/
structure Question where
  id : Nat
deriving DecidableEq, Repr

/-- `TrainingModule` row with its `questions` relationship. -/
structure TrainingModule where
  id : Nat
  active : Bool
  questions : List Question
deriving DecidableEq, Repr

/-- `UserQuestionAnswer` row (one answer of one attempt); `selected_option_id`
is nullable, matching the ORM column. -/
structure UserQuestionAnswer where
  question_id : Nat
  selected_option_id : Option Nat
  is_correct : Bool
deriving DecidableEq, Repr

/-- `UserModuleProgress` row (one attempt) with its `answers` relationship in
insertion order. -/
structure UserModuleProgress where
  id : Nat
  start_date : Nat
  completed_date : Option Nat
  score : Option Nat
  answers : List UserQuestionAnswer
deriving DecidableEq, Repr

/-- `len(module.questions) or 1`, the defensive total used by
`training_dashboard` (line 171) and the GET retry check (line 234). -/
def totalQuestionsOr1 (m : TrainingModule) : Nat :=
  if m.questions.length = 0 then 1 else m.questions.length

/-- A fresh `UserModuleProgress(user_id=…, training_module_id=…,
start_date=now)`: score and completed_date are NULL, no answers. -/
def newProgress (fresh now : Nat) : UserModuleProgress :=
  { id := fresh, start_date := now, completed_date := none, score := none, answers := [] }

/-- GET branch of `take_training_module` (routes.py lines 232-252): resume the
latest attempt, or create a fresh row when none exists or the latest one is
completed with a failing recorded score. -/
def beginOrResume (m : TrainingModule) (now fresh : Nat)
    (ps : List UserModuleProgress) : List UserModuleProgress :=
  match ps.getLast? with
  | none => ps ++ [newProgress fresh now]
  | some p =>
    match p.completed_date with
    | none => ps
    | some _ =>
      match p.score with
      | none => ps
      | some s =>
        if 2 * s < totalQuestionsOr1 m then ps ++ [newProgress fresh now] else ps

/-- `user_answers` computed at the end of the GET handler (lines 304-307):
the previously recorded (question id, selected option id) pairs of the latest
attempt when it is not completed, else the empty map. -/
def prefill (ps : List UserModuleProgress) : List (Nat × Option Nat) :=
  match ps.getLast? with
  | none => []
  | some p =>
    match p.completed_date with
    | none => p.answers.map (fun a => (a.question_id, a.selected_option_id))
    | some _ => []

/-- `request.form.get('question_<q>')`: the submitted option id for a
question, `none` when the question is absent from the POST body. -/
def formLookup (form : List (Nat × Nat)) (q : Nat) : Option Nat :=
  (form.find? (fun e => e.1 = q)).map (fun e => e.2)

/-- `Option.query.get(selected_option_id)`: global primary-key lookup,
oblivious to which question the option belongs to. -/
def findOption (opts : List QOption) (oid : Nat) : Option QOption :=
  opts.find? (fun o => o.id = oid)

/-- In-place update of the answer object held by the `existing_answers`
dict: the dict comprehension keeps the last row per question id, so the last
matching element is rewritten and everything else is untouched. -/
def updateLast (q : Nat) (sid : Option Nat) (isc : Bool) :
    List UserQuestionAnswer → List UserQuestionAnswer
  | [] => []
  | a :: rest =>
    if ∃ b ∈ rest, b.question_id = q then a :: updateLast q sid isc rest
    else if a.question_id = q then
      { a with selected_option_id := sid, is_correct := isc } :: rest
    else a :: rest

/-- One iteration of the answer loop (lines 268-284) for one question:
resolve the submitted option globally, take `is_correct` from the resolved
option (False when no row exists), then update the pre-existing answer in
place or append a new one. `orig` is the set of question ids captured in
`existing_answers` before the loop started. -/
def applyQuestion (opts : List QOption) (form : List (Nat × Nat)) (orig : List Nat)
    (answers : List UserQuestionAnswer) (q : Question) : List UserQuestionAnswer :=
  match formLookup form q.id with
  | none => answers
  | some oid =>
    let so := findOption opts oid
    let isc := (so.map (fun o => o.is_correct)).getD false
    let sid := so.map (fun o => o.id)
    if q.id ∈ orig then updateLast q.id sid isc answers
    else answers ++ [{ question_id := q.id, selected_option_id := sid, is_correct := isc }]

/-- The full `for question in module.questions` loop. -/
def recordLoop (opts : List QOption) (form : List (Nat × Nat)) (orig : List Nat)
    (qs : List Question) (answers : List UserQuestionAnswer) : List UserQuestionAnswer :=
  qs.foldl (applyQuestion opts form orig) answers

/-- `request.form.get('action', 'submit')`. -/
inductive FormAction
  | save
  | submit
deriving DecidableEq, Repr

/-- Outcome reported by the POST handler: the "progress saved" flash, or the
finalization flash carrying pass/fail together with the recorded score and
the question total it was divided by. -/
inductive PostResult
  | saved
  | finalized (passed : Bool) (score : Nat) (total : Nat)
deriving DecidableEq, Repr

/-- `sum(1 for ans in progress.answers if ans.is_correct)`. -/
def countCorrect (answers : List UserQuestionAnswer) : Nat :=
  (answers.filter (fun a => a.is_correct)).length

/-- POST branch of `take_training_module` (lines 254-302): reuse the latest
attempt whatever its state (no terminality check), or create one when none
exists; run the answer loop; on `save` commit, on `submit` recompute the
score over ALL answers of the attempt, stamp `completed_date`, and divide by
the raw question count — `none` models the uncommitted `ZeroDivisionError`
on a module without questions. -/
def recordAnswers (m : TrainingModule) (opts : List QOption) (form : List (Nat × Nat))
    (action : FormAction) (now fresh : Nat) (ps : List UserModuleProgress) :
    Option (List UserModuleProgress × PostResult) :=
  let front := ps.dropLast
  let progress := (ps.getLast?).getD (newProgress fresh now)
  let answers1 :=
    recordLoop opts form (progress.answers.map (fun a => a.question_id)) m.questions
      progress.answers
  let progress1 := { progress with answers := answers1 }
  match action with
  | .save => some (front ++ [progress1], .saved)
  | .submit =>
    let correct := countCorrect answers1
    let total := m.questions.length
    if total = 0 then none
    else
      some (front ++ [{ progress1 with score := some correct, completed_date := some now }],
        .finalized (decide (total ≤ 2 * correct)) correct total)

/-- One entry of the `completed_modules` list of the dashboard:
`{'module': …, 'score': …, 'passed': True}`. -/
structure CompletedEntry where
  module : TrainingModule
  score : Nat
  passed : Bool
deriving DecidableEq, Repr

/-- The three lists rendered by `training_dashboard`. -/
structure Buckets where
  to_be_completed : List TrainingModule
  in_progress : List TrainingModule
  completed : List CompletedEntry
deriving DecidableEq, Repr

/-- Bucket choice for one module given the latest progress row
(`training_dashboard` lines 168-183). -/
def classifyModule (b : Buckets) (latest : Option UserModuleProgress)
    (m : TrainingModule) : Buckets :=
  match latest with
  | none => { b with to_be_completed := b.to_be_completed ++ [m] }
  | some p =>
    match p.completed_date with
    | none => { b with in_progress := b.in_progress ++ [m] }
    | some _ =>
      match p.score with
      | some s =>
        if totalQuestionsOr1 m ≤ 2 * s then
          { b with completed := b.completed ++ [{ module := m, score := s, passed := true }] }
        else { b with to_be_completed := b.to_be_completed ++ [m] }
      | none => { b with to_be_completed := b.to_be_completed ++ [m] }

/-- `training_dashboard` (lines 151-191): resolve the onboarding path
(absent path gives no steps), keep the active step modules without
deduplication, and bucket each by its latest attempt. The function only reads
`progressOf`; it returns buckets and no updated store, so it performs no
writes by construction. -/
def classify (path : Option (List TrainingModule))
    (progressOf : Nat → List UserModuleProgress) : Buckets :=
  let steps := path.getD []
  let activeModules := steps.filter (fun m => m.active)
  activeModules.foldl (fun b m => classifyModule b ((progressOf m.id).getLast?) m)
    { to_be_completed := [], in_progress := [], completed := [] }

/-- One HTTP request against `take_training_module` for a fixed
(user, module) pair. -/
inductive ReqOp
  | get (now fresh : Nat)
  | post (form : List (Nat × Nat)) (action : FormAction) (now fresh : Nat)
deriving DecidableEq, Repr

/-- Effect of one request on the pair's progress rows; a crashed POST
(`none`) leaves the store unchanged because nothing was committed. -/
def applyOp (m : TrainingModule) (opts : List QOption)
    (ps : List UserModuleProgress) : ReqOp → List UserModuleProgress
  | .get now fresh => beginOrResume m now fresh ps
  | .post form action now fresh =>
    match recordAnswers m opts form action now fresh ps with
    | some (ps1, _) => ps1
    | none => ps

/-- Run a request sequence from the empty store. -/
def runOps (m : TrainingModule) (opts : List QOption) (ops : List ReqOp) :
    List UserModuleProgress :=
  ops.foldl (applyOp m opts) []

/-- Number of attempts of the pair that are still active (no
`completed_date`). -/
def activeCount (ps : List UserModuleProgress) : Nat :=
  (ps.filter (fun p => p.completed_date = none)).length

/-- The answer list produced by one POST's answer loop on attempt `p`:
`existing_answers` is seeded from `p.answers` before the loop runs. -/
def loopAnswers (m : TrainingModule) (opts : List QOption) (form : List (Nat × Nat))
    (p : UserModuleProgress) : List UserQuestionAnswer :=
  recordLoop opts form (p.answers.map (fun a => a.question_id)) m.questions p.answers

/-- Attempts of the pair whose every row but the last is completed; the
inductive invariant behind "at most one active attempt". -/
def AllButLastTerminal (ps : List UserModuleProgress) : Prop :=
  ∀ p ∈ ps.dropLast, p.completed_date ≠ none

/- Concrete fixture data used by counterexamples and witnesses. -/

/-- A two-question module: question 1 with options 1 (correct) and 2,
question 2 with options 3 (correct) and 4. -/
def moduleFix : TrainingModule := ⟨10, true, [⟨1⟩, ⟨2⟩]⟩

/-- Option table of `moduleFix`. -/
def optsFix : List QOption := [⟨1, 1, true⟩, ⟨2, 1, false⟩, ⟨3, 2, true⟩, ⟨4, 2, false⟩]

/-- A one-question module over question 1. -/
def moduleOneQ : TrainingModule := ⟨12, true, [⟨1⟩]⟩

/-- A module with an empty question set. -/
def moduleZeroQ : TrainingModule := ⟨11, true, []⟩

/-- A terminal attempt: completed at instant 5 with a recorded score of 0 and
one incorrect answer to question 1. -/
def terminalFix : UserModuleProgress := ⟨1, 0, some 5, some 0, [⟨1, some 2, false⟩]⟩

/-- An active attempt holding one saved (incorrect) answer to question 1. -/
def activeFix : UserModuleProgress := ⟨1, 0, none, none, [⟨1, some 2, false⟩]⟩

/- General lemmas about the handlers. -/

/-- SAVE equation: the POST handler rewrites the latest attempt's answer list
through the loop and commits without touching score or completion. -/
theorem recordAnswers_save_eq (m : TrainingModule) (opts : List QOption)
    (form : List (Nat × Nat)) (now fresh : Nat) (ps : List UserModuleProgress)
    (p : UserModuleProgress) (hl : ps.getLast? = some p) :
    recordAnswers m opts form .save now fresh ps =
      some (ps.dropLast ++ [{ p with answers := loopAnswers m opts form p }], .saved) := by
  simp [recordAnswers, hl, loopAnswers]

/-- SUBMIT equation for a module with at least one question: the latest
attempt gets the looped answers, a score counting all of its correct answers,
and `completed_date = now`; the flash outcome divides by the raw question
count. -/
theorem recordAnswers_submit_eq (m : TrainingModule) (opts : List QOption)
    (form : List (Nat × Nat)) (now fresh : Nat) (ps : List UserModuleProgress)
    (p : UserModuleProgress) (hl : ps.getLast? = some p)
    (hq : m.questions.length ≠ 0) :
    recordAnswers m opts form .submit now fresh ps =
      some (ps.dropLast ++ [{ p with
          answers := loopAnswers m opts form p,
          score := some (countCorrect (loopAnswers m opts form p)),
          completed_date := some now }],
        .finalized (decide (m.questions.length ≤ 2 * countCorrect (loopAnswers m opts form p)))
          (countCorrect (loopAnswers m opts form p)) m.questions.length) := by
  simp [recordAnswers, hl, loopAnswers, hq]

/-- SAVE on a pair with no attempt rows implicitly creates the attempt. -/
theorem recordAnswers_save_nil (m : TrainingModule) (opts : List QOption)
    (form : List (Nat × Nat)) (now fresh : Nat) :
    recordAnswers m opts form .save now fresh [] =
      some ([{ newProgress fresh now with
                 answers := loopAnswers m opts form (newProgress fresh now) }], .saved) := by
  simp [recordAnswers, loopAnswers]

/-- SUBMIT on a pair with no attempt rows creates and finalizes the attempt
in one call (module with at least one question). -/
theorem recordAnswers_submit_nil (m : TrainingModule) (opts : List QOption)
    (form : List (Nat × Nat)) (now fresh : Nat) (hq : m.questions.length ≠ 0) :
    recordAnswers m opts form .submit now fresh [] =
      some ([{ newProgress fresh now with
          answers := loopAnswers m opts form (newProgress fresh now),
          score := some (countCorrect (loopAnswers m opts form (newProgress fresh now))),
          completed_date := some now }],
        .finalized
          (decide (m.questions.length ≤
            2 * countCorrect (loopAnswers m opts form (newProgress fresh now))))
          (countCorrect (loopAnswers m opts form (newProgress fresh now)))
          m.questions.length) := by
  simp [recordAnswers, loopAnswers, hq]

/-- Dashboard with a single-step path: the module is classified by the
latest attempt alone. -/
theorem classify_single_eq (m : TrainingModule) (f : Nat → List UserModuleProgress)
    (hm : m.active = true) :
    classify (some [m]) f =
      classifyModule { to_be_completed := [], in_progress := [], completed := [] }
        ((f m.id).getLast?) m := by
  simp [classify, hm]

/- Claim theorems. -/

/-- C5: when the latest attempt of the pair is active, the GET handler
returns the store unchanged (no new attempt row), the same attempt stays the
latest across two consecutive calls, and the previously recorded
(question id, option id) pairs are prefilled. -/
theorem C5_resume_active (m : TrainingModule) (now fresh now2 fresh2 : Nat)
    (ps : List UserModuleProgress) (p : UserModuleProgress)
    (hl : ps.getLast? = some p) (hact : p.completed_date = none) :
    beginOrResume m now fresh ps = ps ∧
    beginOrResume m now2 fresh2 (beginOrResume m now fresh ps) = ps ∧
    (beginOrResume m now fresh ps).getLast? = some p ∧
    prefill ps = p.answers.map (fun a => (a.question_id, a.selected_option_id)) := by
  have h1 : beginOrResume m now fresh ps = ps := by
    simp [beginOrResume, hl, hact]
  refine ⟨h1, ?_, ?_, ?_⟩
  · rw [h1]; simp [beginOrResume, hl, hact]
  · rw [h1, hl]
  · simp [prefill, hl, hact]

/-- Witness for C5 at a concrete active attempt. -/
theorem C5_witness :
    ([activeFix].getLast? = some activeFix) ∧ activeFix.completed_date = none ∧
    (beginOrResume moduleOneQ 7 2 [activeFix] = [activeFix] ∧
      beginOrResume moduleOneQ 8 3 (beginOrResume moduleOneQ 7 2 [activeFix]) = [activeFix] ∧
      (beginOrResume moduleOneQ 7 2 [activeFix]).getLast? = some activeFix ∧
      prefill [activeFix] =
        activeFix.answers.map (fun a => (a.question_id, a.selected_option_id))) :=
  ⟨rfl, rfl, C5_resume_active moduleOneQ 7 2 8 3 [activeFix] activeFix rfl rfl⟩

/-- C2: SUBMIT on an active latest attempt of a module with at least one
question persists the looped answers, sets `score` to the number of correct
answers over the attempt's whole accumulated answer set, stamps
`completed_date = now`, and reports PASS exactly when
`score / question_count ≥ 1/2`. -/
theorem C2_submit_scores_accumulated (m : TrainingModule) (opts : List QOption)
    (form : List (Nat × Nat)) (now fresh : Nat) (ps : List UserModuleProgress)
    (p : UserModuleProgress) (hl : ps.getLast? = some p)
    (hact : p.completed_date = none) (hq : m.questions.length ≠ 0) :
    ∃ p1, recordAnswers m opts form .submit now fresh ps =
        some (ps.dropLast ++ [p1],
          .finalized (decide (m.questions.length ≤ 2 * countCorrect p1.answers))
            (countCorrect p1.answers) m.questions.length) ∧
      p1.answers = loopAnswers m opts form p ∧
      p1.score = some (countCorrect p1.answers) ∧
      p1.completed_date = some now :=
  ⟨_, recordAnswers_submit_eq m opts form now fresh ps p hl hq, rfl, rfl, rfl⟩

/-- Witness for C2: submitting a correct option for question 1 and a wrong
one for question 2 on an attempt that already held an incorrect answer. -/
theorem C2_witness :
    ([activeFix].getLast? = some activeFix) ∧ activeFix.completed_date = none ∧
    moduleFix.questions.length ≠ 0 ∧
    (∃ p1, recordAnswers moduleFix optsFix [(1, 1), (2, 4)] .submit 9 2 [activeFix] =
        some ([activeFix].dropLast ++ [p1],
          .finalized (decide (moduleFix.questions.length ≤ 2 * countCorrect p1.answers))
            (countCorrect p1.answers) moduleFix.questions.length) ∧
      p1.answers = loopAnswers moduleFix optsFix [(1, 1), (2, 4)] activeFix ∧
      p1.score = some (countCorrect p1.answers) ∧
      p1.completed_date = some 9) :=
  ⟨rfl, rfl, by decide,
    C2_submit_scores_accumulated moduleFix optsFix [(1, 1), (2, 4)] 9 2 [activeFix]
      activeFix rfl rfl (by decide)⟩

/-- C1 counterexample: a SUBMIT aimed at a completed attempt does not raise
any error; it succeeds, overwrites the recorded score 0 with 1, moves
`completed_date` from instant 5 to instant 9, and rewrites the stored
answer. -/
theorem C1_counterexample :
    recordAnswers moduleOneQ optsFix [(1, 1)] .submit 9 2 [terminalFix] =
      some ([{ id := 1, start_date := 0, completed_date := some 9, score := some 1,
               answers := [{ question_id := 1, selected_option_id := some 1,
                             is_correct := true }] }],
        .finalized true 1 1) ∧
    terminalFix.completed_date = some 5 ∧ terminalFix.score = some 0 ∧
    terminalFix.answers =
      [{ question_id := 1, selected_option_id := some 2, is_correct := false }] :=
  ⟨rfl, rfl, rfl, rfl⟩

/-- C1 (amended): the POST handler never checks terminality; a SUBMIT whose
latest attempt is already completed is accepted, reruns the answer loop on
it, recomputes the score and overwrites `completed_date` with the new
instant. -/
theorem C1_terminal_attempt_is_mutated (m : TrainingModule) (opts : List QOption)
    (form : List (Nat × Nat)) (now fresh t : Nat) (ps : List UserModuleProgress)
    (p : UserModuleProgress) (hl : ps.getLast? = some p)
    (hterm : p.completed_date = some t) (hq : m.questions.length ≠ 0) :
    recordAnswers m opts form .submit now fresh ps =
      some (ps.dropLast ++ [{ p with
          answers := loopAnswers m opts form p,
          score := some (countCorrect (loopAnswers m opts form p)),
          completed_date := some now }],
        .finalized (decide (m.questions.length ≤ 2 * countCorrect (loopAnswers m opts form p)))
          (countCorrect (loopAnswers m opts form p)) m.questions.length) :=
  recordAnswers_submit_eq m opts form now fresh ps p hl hq

/-- Witness for the amended C1 at the concrete terminal attempt. -/
theorem C1_witness :
    ([terminalFix].getLast? = some terminalFix) ∧
    terminalFix.completed_date = some 5 ∧ moduleOneQ.questions.length ≠ 0 ∧
    recordAnswers moduleOneQ optsFix [(1, 1)] .submit 9 2 [terminalFix] =
      some ([terminalFix].dropLast ++ [{ terminalFix with
          answers := loopAnswers moduleOneQ optsFix [(1, 1)] terminalFix,
          score := some (countCorrect (loopAnswers moduleOneQ optsFix [(1, 1)] terminalFix)),
          completed_date := some 9 }],
        .finalized
          (decide (moduleOneQ.questions.length ≤
            2 * countCorrect (loopAnswers moduleOneQ optsFix [(1, 1)] terminalFix)))
          (countCorrect (loopAnswers moduleOneQ optsFix [(1, 1)] terminalFix))
          moduleOneQ.questions.length) :=
  ⟨rfl, rfl, by decide,
    C1_terminal_attempt_is_mutated moduleOneQ optsFix [(1, 1)] 9 2 5 [terminalFix]
      terminalFix rfl rfl (by decide)⟩

/-- C3 counterexample: on a module with an empty question set, SUBMIT
finalization divides by the raw `len(module.questions)` and the request
dies with `ZeroDivisionError` (modelled by `none`) instead of treating the
count as 1. -/
theorem C3_counterexample :
    recordAnswers moduleZeroQ [] [] .submit 5 1 [newProgress 1 0] = none ∧
    moduleZeroQ.questions.length = 0 ∧ totalQuestionsOr1 moduleZeroQ = 1 :=
  ⟨rfl, rfl, rfl⟩

/-- C3 (amended): the `or 1` guard protects only the dashboard
classification and the GET retry check; SUBMIT finalization divides by the
raw question count, so a zero-question module crashes the submission. -/
theorem C3_guard_only_on_read_paths (m : TrainingModule) (opts : List QOption)
    (form : List (Nat × Nat)) (b : Buckets) (now fresh t s : Nat)
    (ps : List UserModuleProgress) (p : UserModuleProgress)
    (hm : m.questions = []) (hl : ps.getLast? = some p)
    (hterm : p.completed_date = some t) (hs : p.score = some s) :
    (beginOrResume m now fresh ps =
      if 2 * s < 1 then ps ++ [newProgress fresh now] else ps) ∧
    (classifyModule b (some p) m =
      if 1 ≤ 2 * s then
        { b with completed := b.completed ++ [{ module := m, score := s, passed := true }] }
      else { b with to_be_completed := b.to_be_completed ++ [m] }) ∧
    recordAnswers m opts form .submit now fresh ps = none := by
  have ht : totalQuestionsOr1 m = 1 := by simp [totalQuestionsOr1, hm]
  refine ⟨?_, ?_, ?_⟩
  · rw [← ht]; simp [beginOrResume, hl, hterm, hs]
  · rw [← ht]; simp [classifyModule, hterm, hs]
  · simp [recordAnswers, hl, hm]

/-- Witness for the amended C3 at a zero-question module whose latest
attempt was completed with score 0. -/
theorem C3_witness :
    (moduleZeroQ.questions = []) ∧
    ([terminalFix].getLast? = some terminalFix) ∧
    terminalFix.completed_date = some 5 ∧ terminalFix.score = some 0 ∧
    ((beginOrResume moduleZeroQ 7 2 [terminalFix] =
      if 2 * 0 < 1 then [terminalFix] ++ [newProgress 2 7] else [terminalFix]) ∧
    (classifyModule { to_be_completed := [], in_progress := [], completed := [] }
        (some terminalFix) moduleZeroQ =
      if 1 ≤ 2 * 0 then
        { to_be_completed := ([] : List TrainingModule), in_progress := [],
          completed := [{ module := moduleZeroQ, score := 0, passed := true }] }
      else { to_be_completed := [moduleZeroQ], in_progress := [], completed := [] }) ∧
    recordAnswers moduleZeroQ [] [] .submit 7 2 [terminalFix] = none) :=
  ⟨rfl, rfl, rfl, rfl,
    C3_guard_only_on_read_paths moduleZeroQ [] []
      { to_be_completed := [], in_progress := [], completed := [] } 7 2 5 0
      [terminalFix] terminalFix rfl rfl rfl rfl⟩

/-- C4 counterexample: option 3 belongs to question 2, yet submitting it for
question 1 records an Answer for question 1 carrying option 3 and option 3's
`is_correct = true`, which is then scored — the pair is neither rejected nor
ignored. -/
theorem C4_counterexample :
    (findOption optsFix 3).map (fun o => o.question_id) = some 2 ∧
    recordAnswers moduleFix optsFix [(1, 3)] .submit 9 2 [] =
      some ([{ id := 2, start_date := 9, completed_date := some 9, score := some 1,
               answers := [{ question_id := 1, selected_option_id := some 3,
                             is_correct := true }] }],
        .finalized true 1 2) :=
  ⟨rfl, rfl⟩

/-- C4 (amended): for each submitted (question, option id) pair the handler
resolves the option by global primary-key lookup regardless of which
question owns it, records the resolved option and its `is_correct` flag on
the question's Answer, and when no Option row exists records an Answer with
no selected option and `is_correct = false`; it never crashes and never
rejects the pair. -/
theorem C4_global_option_resolution (opts : List QOption) (form : List (Nat × Nat))
    (orig : List Nat) (answers : List UserQuestionAnswer) (q : Question) (oid : Nat)
    (hf : formLookup form q.id = some oid) (hnew : q.id ∉ orig) :
    applyQuestion opts form orig answers q =
      answers ++ [{
        question_id := q.id,
        selected_option_id := (findOption opts oid).map (fun o => o.id),
        is_correct := ((findOption opts oid).map (fun o => o.is_correct)).getD false }] := by
  simp [applyQuestion, hf, hnew]

/-- Witness for the amended C4: the cross-question option 3 is recorded for
question 1, and the unknown option id 99 yields an Answer with no selected
option. -/
theorem C4_witness :
    (formLookup [(1, 3)] 1 = some 3) ∧ (1 : Nat) ∉ ([] : List Nat) ∧
    applyQuestion optsFix [(1, 3)] [] [] ⟨1⟩ =
      [] ++ [{
        question_id := 1,
        selected_option_id := (findOption optsFix 3).map (fun o => o.id),
        is_correct := ((findOption optsFix 3).map (fun o => o.is_correct)).getD false }] ∧
    (formLookup [(1, 99)] 1 = some 99) ∧
    applyQuestion optsFix [(1, 99)] [] [] ⟨1⟩ =
      [] ++ [{
        question_id := 1,
        selected_option_id := (findOption optsFix 99).map (fun o => o.id),
        is_correct := ((findOption optsFix 99).map (fun o => o.is_correct)).getD false }] :=
  ⟨rfl, by simp,
    C4_global_option_resolution optsFix [(1, 3)] [] [] ⟨1⟩ 3 rfl (by simp),
    rfl,
    C4_global_option_resolution optsFix [(1, 99)] [] [] ⟨1⟩ 99 rfl (by simp)⟩

/-- C7: the dashboard classifier is a pure read (it returns buckets only):
an absent onboarding path yields three empty lists, and an assigned active
module is bucketed by its latest attempt — none: to-do; active: in-progress;
completed passing: completed carrying the module, its score and
`passed = true`; completed failing: to-do. -/
theorem C7_classify_by_latest_state (m : TrainingModule)
    (f : Nat → List UserModuleProgress) (hm : m.active = true) :
    (classify none f = { to_be_completed := [], in_progress := [], completed := [] }) ∧
    ((f m.id).getLast? = none →
      classify (some [m]) f =
        { to_be_completed := [m], in_progress := [], completed := [] }) ∧
    (∀ p, (f m.id).getLast? = some p →
      (p.completed_date = none →
        classify (some [m]) f =
          { to_be_completed := [], in_progress := [m], completed := [] }) ∧
      (∀ t s, p.completed_date = some t → p.score = some s →
        (totalQuestionsOr1 m ≤ 2 * s →
          classify (some [m]) f = {
            to_be_completed := [], in_progress := [],
            completed := [{ module := m, score := s, passed := true }] }) ∧
        (2 * s < totalQuestionsOr1 m →
          classify (some [m]) f =
            { to_be_completed := [m], in_progress := [], completed := [] }))) := by
  have hc := classify_single_eq m f hm
  refine ⟨by simp [classify], ?_, ?_⟩
  · intro h0
    rw [hc, h0]
    rfl
  · intro p hp
    constructor
    · intro ha
      rw [hc, hp]
      simp [classifyModule, ha]
    · intro t s hT hS
      constructor
      · intro hpass
        rw [hc, hp]
        simp [classifyModule, hT, hS, hpass]
      · intro hfail
        rw [hc, hp]
        simp [classifyModule, hT, hS, Nat.not_le.mpr hfail]

/-- Witness for C7 at a concrete passing state. -/
theorem C7_witness :
    (moduleFix.active = true) ∧
    ((classify none (fun _ => [terminalFix]) =
      { to_be_completed := [], in_progress := [], completed := [] }) ∧
    (((fun _ => [terminalFix]) moduleFix.id).getLast? = none →
      classify (some [moduleFix]) (fun _ => [terminalFix]) =
        { to_be_completed := [moduleFix], in_progress := [], completed := [] }) ∧
    (∀ p, (((fun _ => [terminalFix]) moduleFix.id)).getLast? = some p →
      (p.completed_date = none →
        classify (some [moduleFix]) (fun _ => [terminalFix]) =
          { to_be_completed := [], in_progress := [moduleFix], completed := [] }) ∧
      (∀ t s, p.completed_date = some t → p.score = some s →
        (totalQuestionsOr1 moduleFix ≤ 2 * s →
          classify (some [moduleFix]) (fun _ => [terminalFix]) =
            { to_be_completed := [], in_progress := [],
              completed := [{ module := moduleFix, score := s, passed := true }] }) ∧
        (2 * s < totalQuestionsOr1 moduleFix →
          classify (some [moduleFix]) (fun _ => [terminalFix]) =
            { to_be_completed := [moduleFix], in_progress := [], completed := [] })))) :=
  ⟨rfl, C7_classify_by_latest_state moduleFix (fun _ => [terminalFix]) rfl⟩

/-- C6: when the latest attempt is completed with a failing recorded score,
the GET handler appends a brand-new attempt (fresh id, `start_date = now`,
null score and completion), and the classifier keeps the module out of the
completed bucket: to-do while the failed attempt is the latest, in-progress
once the retry attempt exists. -/
theorem C6_retry_after_fail (m : TrainingModule) (now fresh t s : Nat)
    (ps : List UserModuleProgress) (p : UserModuleProgress)
    (hm : m.active = true) (hl : ps.getLast? = some p)
    (hterm : p.completed_date = some t) (hs : p.score = some s)
    (hfail : 2 * s < totalQuestionsOr1 m) (hid : fresh ≠ p.id) :
    (beginOrResume m now fresh ps = ps ++ [newProgress fresh now]) ∧
    (newProgress fresh now).start_date = now ∧
    (newProgress fresh now).score = none ∧
    (newProgress fresh now).completed_date = none ∧
    (ps ++ [newProgress fresh now]).getLast? = some (newProgress fresh now) ∧
    (newProgress fresh now).id ≠ p.id ∧
    (classify (some [m]) (fun _ => ps) =
      { to_be_completed := [m], in_progress := [], completed := [] }) ∧
    (classify (some [m]) (fun _ => ps ++ [newProgress fresh now]) =
      { to_be_completed := [], in_progress := [m], completed := [] }) := by
  have hc := classify_single_eq m (fun _ => ps) hm
  have hc2 := classify_single_eq m (fun _ => ps ++ [newProgress fresh now]) hm
  refine ⟨?_, rfl, rfl, rfl, ?_, hid, ?_, ?_⟩
  · simp [beginOrResume, hl, hterm, hs, hfail]
  · simp
  · rw [hc, hl]
    simp [classifyModule, hterm, hs, Nat.not_le.mpr hfail]
  · rw [hc2]
    simp [classifyModule, newProgress]

/-- Witness for C6: retrying `moduleOneQ` after the failed `terminalFix`. -/
theorem C6_witness :
    (moduleOneQ.active = true) ∧
    ([terminalFix].getLast? = some terminalFix) ∧
    terminalFix.completed_date = some 5 ∧ terminalFix.score = some 0 ∧
    2 * 0 < totalQuestionsOr1 moduleOneQ ∧ (2 : Nat) ≠ terminalFix.id ∧
    ((beginOrResume moduleOneQ 7 2 [terminalFix] = [terminalFix] ++ [newProgress 2 7]) ∧
    (newProgress 2 7).start_date = 7 ∧
    (newProgress 2 7).score = none ∧
    (newProgress 2 7).completed_date = none ∧
    ([terminalFix] ++ [newProgress 2 7]).getLast? = some (newProgress 2 7) ∧
    (newProgress 2 7).id ≠ terminalFix.id ∧
    (classify (some [moduleOneQ]) (fun _ => [terminalFix]) =
      { to_be_completed := [moduleOneQ], in_progress := [], completed := [] }) ∧
    (classify (some [moduleOneQ]) (fun _ => [terminalFix] ++ [newProgress 2 7]) =
      { to_be_completed := [], in_progress := [moduleOneQ], completed := [] })) :=
  ⟨rfl, rfl, rfl, rfl, by decide, by decide,
    C6_retry_after_fail moduleOneQ 7 2 5 0 [terminalFix] terminalFix rfl rfl rfl rfl
      (by decide) (by decide)⟩

/-- C10: a POST that reaches `take_training_module` with no attempt rows for
the pair does not fail: it creates a fresh attempt (`start_date = now`) and
records the submitted answers on it; with SUBMIT the same single call also
finalizes the new attempt (module with at least one question, as module
creation guarantees). -/
theorem C10_direct_post_without_attempt (m : TrainingModule) (opts : List QOption)
    (form : List (Nat × Nat)) (now fresh : Nat) (hq : m.questions.length ≠ 0) :
    (recordAnswers m opts form .save now fresh [] =
      some ([{ newProgress fresh now with
                 answers := loopAnswers m opts form (newProgress fresh now) }], .saved)) ∧
    (∃ p1, recordAnswers m opts form .submit now fresh [] =
        some ([p1],
          .finalized (decide (m.questions.length ≤ 2 * countCorrect p1.answers))
            (countCorrect p1.answers) m.questions.length) ∧
      p1.start_date = now ∧
      p1.answers = loopAnswers m opts form (newProgress fresh now) ∧
      p1.score = some (countCorrect p1.answers) ∧
      p1.completed_date = some now) :=
  ⟨recordAnswers_save_nil m opts form now fresh,
    ⟨_, recordAnswers_submit_nil m opts form now fresh hq, rfl, rfl, rfl, rfl⟩⟩

/-- Witness for C10: a one-shot SUBMIT on `moduleFix` with no prior
attempt. -/
theorem C10_witness :
    (moduleFix.questions.length ≠ 0) ∧
    ((recordAnswers moduleFix optsFix [(1, 1)] .save 9 2 [] =
      some ([{ newProgress 2 9 with
                 answers := loopAnswers moduleFix optsFix [(1, 1)] (newProgress 2 9) }],
        .saved)) ∧
    (∃ p1, recordAnswers moduleFix optsFix [(1, 1)] .submit 9 2 [] =
        some ([p1],
          .finalized (decide (moduleFix.questions.length ≤ 2 * countCorrect p1.answers))
            (countCorrect p1.answers) moduleFix.questions.length) ∧
      p1.start_date = 9 ∧
      p1.answers = loopAnswers moduleFix optsFix [(1, 1)] (newProgress 2 9) ∧
      p1.score = some (countCorrect p1.answers) ∧
      p1.completed_date = some 9)) :=
  ⟨by decide, C10_direct_post_without_attempt moduleFix optsFix [(1, 1)] 9 2 (by decide)⟩

/- Invariant machinery for C9. -/

/-- The GET handler preserves "every attempt but the last is completed":
it appends a fresh active attempt only when the store is empty or the latest
attempt is itself completed. -/
theorem allButLast_beginOrResume (m : TrainingModule) (now fresh : Nat)
    (ps : List UserModuleProgress) (h : AllButLastTerminal ps) :
    AllButLastTerminal (beginOrResume m now fresh ps) := by
  induction ps using List.reverseRecOn with
  | nil =>
    intro p hp
    simp [beginOrResume] at hp
  | append_singleton l a ih =>
    have hlast : (l ++ [a]).getLast? = some a := List.getLast?_concat l
    have hl : ∀ p ∈ l, p.completed_date ≠ none := by
      intro p hp
      exact h p (by rw [List.dropLast_concat]; exact hp)
    cases hc : a.completed_date with
    | none =>
      simpa [beginOrResume, hlast, hc] using h
    | some t =>
      cases hs : a.score with
      | none =>
        simpa [beginOrResume, hlast, hc, hs] using h
      | some s =>
        by_cases hf : 2 * s < totalQuestionsOr1 m
        · intro p hp
          simp only [beginOrResume, hlast, hc, hs, if_pos hf] at hp
          rw [List.dropLast_concat, List.mem_append] at hp
          rcases hp with hp | hp
          · exact hl p hp
          · rw [List.mem_singleton] at hp
            rw [hp, hc]
            simp
        · simpa [beginOrResume, hlast, hc, hs, if_neg hf] using h

/-- The POST handler preserves the invariant: it rewrites only the latest
attempt (creating it when absent) and leaves the earlier, completed rows in
place. -/
theorem allButLast_recordAnswers (m : TrainingModule) (opts : List QOption)
    (form : List (Nat × Nat)) (action : FormAction) (now fresh : Nat)
    (ps ps1 : List UserModuleProgress) (r : PostResult)
    (h : AllButLastTerminal ps)
    (hr : recordAnswers m opts form action now fresh ps = some (ps1, r)) :
    AllButLastTerminal ps1 := by
  have hfront : ∀ x, ps1 = ps.dropLast ++ [x] → AllButLastTerminal ps1 := by
    intro x hx
    intro p hp
    rw [hx, List.dropLast_concat] at hp
    exact h p hp
  cases action with
  | save =>
    simp only [recordAnswers] at hr
    rw [Option.some_inj, Prod.mk.injEq] at hr
    exact hfront _ hr.1.symm
  | submit =>
    by_cases hq : m.questions.length = 0
    · simp [recordAnswers, hq] at hr
    · simp only [recordAnswers, if_neg hq] at hr
      rw [Option.some_inj, Prod.mk.injEq] at hr
      exact hfront _ hr.1.symm

/-- One request preserves the invariant (a crashed POST changes nothing). -/
theorem allButLast_applyOp (m : TrainingModule) (opts : List QOption)
    (ps : List UserModuleProgress) (op : ReqOp) (h : AllButLastTerminal ps) :
    AllButLastTerminal (applyOp m opts ps op) := by
  cases op with
  | get now fresh => exact allButLast_beginOrResume m now fresh ps h
  | post form action now fresh =>
    have heq : applyOp m opts ps (ReqOp.post form action now fresh) =
        match recordAnswers m opts form action now fresh ps with
        | some (ps1, _) => ps1
        | none => ps := rfl
    rw [heq]
    cases hr : recordAnswers m opts form action now fresh ps with
    | none => exact h
    | some pr =>
      cases pr with
      | mk ps1 r => exact allButLast_recordAnswers m opts form action now fresh ps ps1 r h hr

/-- The invariant holds along any request sequence. -/
theorem allButLast_foldl (m : TrainingModule) (opts : List QOption) :
    ∀ (ops : List ReqOp) (ps : List UserModuleProgress), AllButLastTerminal ps →
      AllButLastTerminal (ops.foldl (applyOp m opts) ps)
  | [], _, h => h
  | op :: ops, ps, h =>
    allButLast_foldl m opts ops (applyOp m opts ps op) (allButLast_applyOp m opts ps op h)

/-- A store whose non-final rows are all completed has at most one active
attempt. -/
theorem activeCount_le_one (ps : List UserModuleProgress)
    (h : AllButLastTerminal ps) : activeCount ps ≤ 1 := by
  induction ps using List.reverseRecOn with
  | nil => simp [activeCount]
  | append_singleton l a ih =>
    have hl : ∀ p ∈ l, p.completed_date ≠ none := by
      intro p hp
      exact h p (by rw [List.dropLast_concat]; exact hp)
    have hnil : l.filter (fun p => p.completed_date = none) = [] := by
      rw [List.filter_eq_nil_iff]
      intro p hp
      simpa using hl p hp
    simp only [activeCount, List.filter_append, hnil, List.nil_append]
    exact le_trans (List.length_filter_le _ [a]) (by simp)

/-- C9: along every sequence of GET (begin-or-resume) and POST
(record-answers) requests for one (user, module) pair, at most one attempt
row is active (null `completed_date`) at any time, and every attempt except
the latest is completed. -/
theorem C9_at_most_one_active_attempt (m : TrainingModule) (opts : List QOption)
    (ops : List ReqOp) :
    activeCount (runOps m opts ops) ≤ 1 ∧ AllButLastTerminal (runOps m opts ops) := by
  have h : AllButLastTerminal (runOps m opts ops) :=
    allButLast_foldl m opts ops [] (by intro p hp; simp at hp)
  exact ⟨activeCount_le_one _ h, h⟩

/- Answer-loop lemmas for C8. -/

/-- The in-place update never changes which question each row answers. -/
theorem updateLast_map_qid (q : Nat) (sid : Option Nat) (isc : Bool)
    (l : List UserQuestionAnswer) :
    (updateLast q sid isc l).map (fun a => a.question_id) =
      l.map (fun a => a.question_id) := by
  induction l with
  | nil => rfl
  | cons a rest ih =>
    by_cases hx : ∃ b ∈ rest, b.question_id = q
    · simp [updateLast, hx, ih]
    · by_cases ha : a.question_id = q
      · simp [updateLast, hx, ha]
      · simp [updateLast, hx, ha]

/-- Rows answering a different question are left untouched by the in-place
update. -/
theorem mem_updateLast_of_ne (q : Nat) (sid : Option Nat) (isc : Bool)
    (l : List UserQuestionAnswer) (a : UserQuestionAnswer)
    (ha : a ∈ updateLast q sid isc l) (hne : a.question_id ≠ q) : a ∈ l := by
  induction l with
  | nil => simp [updateLast] at ha
  | cons b rest ih =>
    by_cases hx : ∃ c ∈ rest, c.question_id = q
    · simp only [updateLast, if_pos hx] at ha
      rcases List.mem_cons.mp ha with h | h
      · exact h ▸ List.mem_cons_self b rest
      · exact List.mem_cons_of_mem b (ih h)
    · by_cases hb : b.question_id = q
      · simp only [updateLast, if_neg hx, if_pos hb] at ha
        rcases List.mem_cons.mp ha with h | h
        · subst h
          exact absurd hb hne
        · exact List.mem_cons_of_mem b h
      · simp only [updateLast, if_neg hx, if_neg hb] at ha
        exact ha

/-- With at most one row per question, every row answering question `q`
after the update carries the freshly submitted option and correctness. -/
theorem updateLast_values (q : Nat) (sid : Option Nat) (isc : Bool)
    (l : List UserQuestionAnswer)
    (hnd : (l.map (fun a => a.question_id)).Nodup) :
    ∀ a ∈ updateLast q sid isc l, a.question_id = q →
      a.selected_option_id = sid ∧ a.is_correct = isc := by
  induction l with
  | nil => intro a ha; simp [updateLast] at ha
  | cons b rest ih =>
    rw [List.map_cons, List.nodup_cons] at hnd
    intro a ha haq
    by_cases hx : ∃ c ∈ rest, c.question_id = q
    · simp only [updateLast, if_pos hx] at ha
      rcases List.mem_cons.mp ha with h | h
      · exfalso
        obtain ⟨c, hc, hcq⟩ := hx
        subst h
        exact hnd.1 (haq ▸ hcq ▸ List.mem_map_of_mem (fun x => x.question_id) hc)
      · exact ih hnd.2 a h haq
    · by_cases hb : b.question_id = q
      · simp only [updateLast, if_neg hx, if_pos hb] at ha
        rcases List.mem_cons.mp ha with h | h
        · subst h
          exact ⟨rfl, rfl⟩
        · exact absurd ⟨a, h, haq⟩ hx
      · simp only [updateLast, if_neg hx, if_neg hb] at ha
        rcases List.mem_cons.mp ha with h | h
        · subst h
          exact absurd haq hb
        · exact absurd ⟨a, h, haq⟩ hx

/-- Updating with values every matching row already carries is a no-op. -/
theorem updateLast_id (q : Nat) (sid : Option Nat) (isc : Bool)
    (l : List UserQuestionAnswer)
    (h : ∀ a ∈ l, a.question_id = q →
      a.selected_option_id = sid ∧ a.is_correct = isc) :
    updateLast q sid isc l = l := by
  induction l with
  | nil => rfl
  | cons b rest ih =>
    by_cases hx : ∃ c ∈ rest, c.question_id = q
    · rw [updateLast, if_pos hx, ih (fun a ha haq => h a (List.mem_cons_of_mem b ha) haq)]
    · by_cases hb : b.question_id = q
      · obtain ⟨h1, h2⟩ := h b (List.mem_cons_self b rest) hb
        rw [updateLast, if_neg hx, if_pos hb, ← h1, ← h2]
      · rw [updateLast, if_neg hx, if_neg hb]

/-- A fold whose step fixes the accumulator on every element is the
identity. -/
theorem foldl_fixed {α β : Type} (f : α → β → α) (acc : α) :
    ∀ l : List β, (∀ b ∈ l, f acc b = acc) → l.foldl f acc = acc
  | [], _ => rfl
  | b :: l, h => by
    have hb : f acc b = acc := h b (List.mem_cons_self b l)
    show l.foldl f (f acc b) = acc
    rw [hb]
    exact foldl_fixed f acc l (fun x hx => h x (List.mem_cons_of_mem b hx))

/-- The answer loop only appends rows for question ids that were absent from
the `existing_answers` dict, in question order: the resulting question-id
sequence is the old one followed by a sub-sequence of the processed
question ids. -/
theorem recordLoop_qids (opts : List QOption) (form : List (Nat × Nat))
    (orig : List Nat) (qs : List Question) :
    ∀ answers : List UserQuestionAnswer,
      ∃ ext : List Nat,
        (recordLoop opts form orig qs answers).map (fun a => a.question_id) =
          answers.map (fun a => a.question_id) ++ ext ∧
        List.Sublist ext (qs.map (fun q => q.id)) ∧ ∀ x ∈ ext, x ∉ orig := by
  induction qs with
  | nil =>
    intro answers
    exact ⟨[], by simp [recordLoop], List.nil_sublist _, by simp⟩
  | cons q qs ih =>
    intro answers
    have hstep : recordLoop opts form orig (q :: qs) answers =
        recordLoop opts form orig qs (applyQuestion opts form orig answers q) := rfl
    cases hf : formLookup form q.id with
    | none =>
      obtain ⟨ext, h1, h2, h3⟩ := ih answers
      have ha : applyQuestion opts form orig answers q = answers := by
        simp [applyQuestion, hf]
      exact ⟨ext, by rw [hstep, ha]; exact h1, h2.cons q.id, h3⟩
    | some oid =>
      by_cases ho : q.id ∈ orig
      · have ha : applyQuestion opts form orig answers q =
            updateLast q.id ((findOption opts oid).map (fun o => o.id))
              (((findOption opts oid).map (fun o => o.is_correct)).getD false) answers := by
          simp [applyQuestion, hf, ho]
        obtain ⟨ext, h1, h2, h3⟩ := ih (applyQuestion opts form orig answers q)
        refine ⟨ext, ?_, h2.cons q.id, h3⟩
        rw [hstep, h1, ha, updateLast_map_qid]
      · have ha : applyQuestion opts form orig answers q =
            answers ++ [⟨q.id, (findOption opts oid).map (fun o => o.id),
              ((findOption opts oid).map (fun o => o.is_correct)).getD false⟩] := by
          simp [applyQuestion, hf, ho]
        obtain ⟨ext, h1, h2, h3⟩ := ih (applyQuestion opts form orig answers q)
        refine ⟨q.id :: ext, ?_, h2.cons₂ q.id, ?_⟩
        · rw [hstep, h1, ha]
          simp
        · intro x hx
          rcases List.mem_cons.mp hx with h | h
          · exact h ▸ ho
          · exact h3 x h

/-- The answer loop keeps at most one row per question when the incoming
rows were duplicate-free, the module's question ids are distinct, and the
dict keys were exactly the incoming question ids. -/
theorem recordLoop_nodup (opts : List QOption) (form : List (Nat × Nat))
    (orig : List Nat) (qs : List Question) (answers : List UserQuestionAnswer)
    (hqs : (qs.map (fun q => q.id)).Nodup)
    (hnd : (answers.map (fun a => a.question_id)).Nodup)
    (habs : ∀ x ∈ qs.map (fun q => q.id), x ∉ orig →
      x ∉ answers.map (fun a => a.question_id)) :
    ((recordLoop opts form orig qs answers).map (fun a => a.question_id)).Nodup := by
  obtain ⟨ext, h1, h2, h3⟩ := recordLoop_qids opts form orig qs answers
  rw [h1]
  refine hnd.append (hqs.sublist h2) ?_
  intro x hx1 hx2
  exact habs x (h2.subset hx2) (h3 x hx2) hx1

/-- Rows answering a question outside the processed list pass through the
loop untouched. -/
theorem recordLoop_stable (opts : List QOption) (form : List (Nat × Nat))
    (orig : List Nat) (x : Nat) (qs : List Question) :
    ∀ answers : List UserQuestionAnswer, x ∉ qs.map (fun q => q.id) →
      ∀ a ∈ recordLoop opts form orig qs answers, a.question_id = x → a ∈ answers := by
  induction qs with
  | nil => intro answers _ a ha _; exact ha
  | cons q qs ih =>
    intro answers hx a ha haq
    rw [List.map_cons, List.mem_cons, not_or] at hx
    have hstep : recordLoop opts form orig (q :: qs) answers =
        recordLoop opts form orig qs (applyQuestion opts form orig answers q) := rfl
    rw [hstep] at ha
    have ha1 : a ∈ applyQuestion opts form orig answers q := ih _ hx.2 a ha haq
    cases hf : formLookup form q.id with
    | none =>
      simpa [applyQuestion, hf] using ha1
    | some oid =>
      by_cases ho : q.id ∈ orig
      · rw [show applyQuestion opts form orig answers q =
            updateLast q.id ((findOption opts oid).map (fun o => o.id))
              (((findOption opts oid).map (fun o => o.is_correct)).getD false) answers from
            by simp [applyQuestion, hf, ho]] at ha1
        exact mem_updateLast_of_ne _ _ _ _ a ha1 (by rw [haq]; exact hx.1)
      · rw [show applyQuestion opts form orig answers q =
            answers ++ [⟨q.id, (findOption opts oid).map (fun o => o.id),
              ((findOption opts oid).map (fun o => o.is_correct)).getD false⟩] from
            by simp [applyQuestion, hf, ho]] at ha1
        rcases List.mem_append.mp ha1 with h | h
        · exact h
        · rw [List.mem_singleton] at h
          subst h
          exact absurd haq.symm hx.1

/-- After the loop, every submitted question has a row, and every row for a
submitted question carries the globally resolved option and its
correctness flag. -/
theorem recordLoop_values (opts : List QOption) (form : List (Nat × Nat))
    (qs : List Question) :
    ∀ (orig : List Nat) (answers : List UserQuestionAnswer),
      (qs.map (fun q => q.id)).Nodup →
      (answers.map (fun a => a.question_id)).Nodup →
      (∀ x ∈ qs.map (fun q => q.id), x ∉ orig →
        x ∉ answers.map (fun a => a.question_id)) →
      (∀ x ∈ orig, x ∈ answers.map (fun a => a.question_id)) →
      ∀ q ∈ qs, ∀ oid, formLookup form q.id = some oid →
        q.id ∈ (recordLoop opts form orig qs answers).map (fun a => a.question_id) ∧
        ∀ a ∈ recordLoop opts form orig qs answers, a.question_id = q.id →
          a.selected_option_id = (findOption opts oid).map (fun o => o.id) ∧
          a.is_correct = ((findOption opts oid).map (fun o => o.is_correct)).getD false := by
  induction qs with
  | nil => intro orig answers _ _ _ _ q hq; exact absurd hq (List.not_mem_nil q)
  | cons q0 qs ih =>
    intro orig answers hqs hnd habs horig q hq oid hf
    rw [List.map_cons, List.nodup_cons] at hqs
    have hstep : recordLoop opts form orig (q0 :: qs) answers =
        recordLoop opts form orig qs (applyQuestion opts form orig answers q0) := rfl
    rcases List.mem_cons.mp hq with rfl | hqtail
    · -- the processed question is the head
      have hvals1 : ∀ a ∈ applyQuestion opts form orig answers q, a.question_id = q.id →
          a.selected_option_id = (findOption opts oid).map (fun o => o.id) ∧
          a.is_correct = ((findOption opts oid).map (fun o => o.is_correct)).getD false := by
        by_cases ho : q.id ∈ orig
        · rw [show applyQuestion opts form orig answers q =
              updateLast q.id ((findOption opts oid).map (fun o => o.id))
                (((findOption opts oid).map (fun o => o.is_correct)).getD false) answers from
              by simp [applyQuestion, hf, ho]]
          exact updateLast_values _ _ _ _ hnd
        · rw [show applyQuestion opts form orig answers q =
              answers ++ [⟨q.id, (findOption opts oid).map (fun o => o.id),
              ((findOption opts oid).map (fun o => o.is_correct)).getD false⟩] from
              by simp [applyQuestion, hf, ho]]
          intro a ha haq
          rcases List.mem_append.mp ha with h | h
          · exact absurd (haq ▸ List.mem_map_of_mem (fun x => x.question_id) h)
              (habs q.id (List.mem_cons_self q.id _) ho)
          · rw [List.mem_singleton] at h
            subst h
            exact ⟨rfl, rfl⟩
      have hmem1 : q.id ∈ (applyQuestion opts form orig answers q).map
          (fun a => a.question_id) := by
        by_cases ho : q.id ∈ orig
        · rw [show applyQuestion opts form orig answers q =
              updateLast q.id ((findOption opts oid).map (fun o => o.id))
                (((findOption opts oid).map (fun o => o.is_correct)).getD false) answers from
              by simp [applyQuestion, hf, ho], updateLast_map_qid]
          exact horig q.id ho
        · rw [show applyQuestion opts form orig answers q =
              answers ++ [⟨q.id, (findOption opts oid).map (fun o => o.id),
              ((findOption opts oid).map (fun o => o.is_correct)).getD false⟩] from
              by simp [applyQuestion, hf, ho]]
          simp
      constructor
      · obtain ⟨ext, h1, _, _⟩ :=
          recordLoop_qids opts form orig qs (applyQuestion opts form orig answers q)
        rw [hstep, h1]
        exact List.mem_append_left ext hmem1
      · intro a ha haq
        rw [hstep] at ha
        exact hvals1 a (recordLoop_stable opts form orig q.id qs _ hqs.1 a ha haq) haq
    · -- the processed question sits in the tail
      rcases q0 with ⟨qid0⟩
      rcases hfx : formLookup form qid0 with _ | oid0
      · have ha : applyQuestion opts form orig answers ⟨qid0⟩ = answers := by
          simp [applyQuestion, hfx]
        rw [hstep, ha]
        exact ih orig answers hqs.2 hnd
          (fun x hx => habs x (List.mem_cons_of_mem qid0 hx)) horig q hqtail oid hf
      · by_cases ho : qid0 ∈ orig
        · have ha : applyQuestion opts form orig answers ⟨qid0⟩ =
              updateLast qid0 ((findOption opts oid0).map (fun o => o.id))
                (((findOption opts oid0).map (fun o => o.is_correct)).getD false) answers := by
            simp [applyQuestion, hfx, ho]
          rw [hstep, ha]
          exact ih orig _ hqs.2 (by rw [updateLast_map_qid]; exact hnd)
            (fun x hx hxo => by
              rw [updateLast_map_qid]
              exact habs x (List.mem_cons_of_mem qid0 hx) hxo)
            (fun x hx => by rw [updateLast_map_qid]; exact horig x hx) q hqtail oid hf
        · have ha : applyQuestion opts form orig answers ⟨qid0⟩ =
              answers ++ [⟨qid0, (findOption opts oid0).map (fun o => o.id),
              ((findOption opts oid0).map (fun o => o.is_correct)).getD false⟩] := by
            simp [applyQuestion, hfx, ho]
          rw [hstep, ha]
          have hq0abs : qid0 ∉ answers.map (fun a => a.question_id) :=
            habs qid0 (List.mem_cons_self qid0 _) ho
          refine ih orig _ hqs.2 ?_ ?_ ?_ q hqtail oid hf
          · rw [List.map_append]
            refine hnd.append (by simp) ?_
            intro x hx1 hx2
            simp at hx2
            exact hq0abs (hx2 ▸ hx1)
          · intro x hx hxo
            rw [List.map_append, List.mem_append, not_or]
            refine ⟨habs x (List.mem_cons_of_mem qid0 hx) hxo, ?_⟩
            simp only [List.map_cons, List.map_nil, List.mem_singleton]
            intro hxq
            exact hqs.1 (hxq ▸ hx)
          · intro x hx
            rw [List.map_append]
            exact List.mem_append_left _ (horig x hx)

/-- Running the answer loop a second time with the same form changes
nothing: every submitted question already has its row with the submitted
values, so each step is an in-place update that rewrites identical data. -/
theorem recordLoop_idem (opts : List QOption) (form : List (Nat × Nat))
    (qs : List Question) (answers0 : List UserQuestionAnswer)
    (hqs : (qs.map (fun q => q.id)).Nodup)
    (hnd : (answers0.map (fun a => a.question_id)).Nodup) :
    recordLoop opts form
      ((recordLoop opts form (answers0.map (fun a => a.question_id)) qs answers0).map
        (fun a => a.question_id))
      qs
      (recordLoop opts form (answers0.map (fun a => a.question_id)) qs answers0) =
      recordLoop opts form (answers0.map (fun a => a.question_id)) qs answers0 := by
  apply foldl_fixed
  intro q hq
  cases hf : formLookup form q.id with
  | none => simp [applyQuestion, hf]
  | some oid =>
    have hvals := recordLoop_values opts form qs (answers0.map (fun a => a.question_id))
      answers0 hqs hnd (fun x _ hx => hx) (fun x hx => hx) q hq oid hf
    have hmem := hvals.1
    simp only [applyQuestion, hf, if_pos hmem]
    exact updateLast_id _ _ _ _ (fun a ha haq => hvals.2 a ha haq)

/-- C8: for an active latest attempt with duplicate-free answer rows and
distinct module question ids, a SAVE leaves exactly one Answer per answered
question; every row of a submitted question carries the latest submitted
option and its correctness, and an identical second SAVE reproduces exactly
the same store (the update happens in place, no duplicates appear). -/
theorem C8_record_answers_idempotent (m : TrainingModule) (opts : List QOption)
    (form : List (Nat × Nat)) (now fresh now2 fresh2 : Nat)
    (ps : List UserModuleProgress) (p : UserModuleProgress)
    (hl : ps.getLast? = some p) (hact : p.completed_date = none)
    (hqs : (m.questions.map (fun q => q.id)).Nodup)
    (hnd : (p.answers.map (fun a => a.question_id)).Nodup) :
    ∃ A1 : List UserQuestionAnswer,
      recordAnswers m opts form .save now fresh ps =
        some (ps.dropLast ++ [{ p with answers := A1 }], .saved) ∧
      recordAnswers m opts form .save now2 fresh2
          (ps.dropLast ++ [{ p with answers := A1 }]) =
        some (ps.dropLast ++ [{ p with answers := A1 }], .saved) ∧
      (A1.map (fun a => a.question_id)).Nodup ∧
      (∀ q ∈ m.questions, ∀ oid, formLookup form q.id = some oid →
        q.id ∈ A1.map (fun a => a.question_id) ∧
        ∀ a ∈ A1, a.question_id = q.id →
          a.selected_option_id = (findOption opts oid).map (fun o => o.id) ∧
          a.is_correct = ((findOption opts oid).map (fun o => o.is_correct)).getD false) := by
  refine ⟨loopAnswers m opts form p,
    recordAnswers_save_eq m opts form now fresh ps p hl, ?_, ?_, ?_⟩
  · have hl2 : (ps.dropLast ++ [{ p with answers := loopAnswers m opts form p }]).getLast? =
        some { p with answers := loopAnswers m opts form p } :=
      List.getLast?_concat _
    rw [recordAnswers_save_eq m opts form now2 fresh2 _ _ hl2, List.dropLast_concat]
    have h3 : loopAnswers m opts form { p with answers := loopAnswers m opts form p } =
        loopAnswers m opts form p :=
      recordLoop_idem opts form m.questions p.answers hqs hnd
    rw [h3]
  · exact recordLoop_nodup opts form (p.answers.map (fun a => a.question_id))
      m.questions p.answers hqs hnd (fun x _ hx => hx)
  · intro q hq oid hf
    exact recordLoop_values opts form m.questions (p.answers.map (fun a => a.question_id))
      p.answers hqs hnd (fun x _ hx => hx) (fun x hx => hx) q hq oid hf

/-- Witness for C8: saving the same two answers twice on `moduleFix`. -/
theorem C8_witness :
    ([activeFix].getLast? = some activeFix) ∧ activeFix.completed_date = none ∧
    (moduleFix.questions.map (fun q => q.id)).Nodup ∧
    (activeFix.answers.map (fun a => a.question_id)).Nodup ∧
    (∃ A1 : List UserQuestionAnswer,
      recordAnswers moduleFix optsFix [(1, 1), (2, 3)] .save 9 2 [activeFix] =
        some ([activeFix].dropLast ++ [{ activeFix with answers := A1 }], .saved) ∧
      recordAnswers moduleFix optsFix [(1, 1), (2, 3)] .save 11 3
          ([activeFix].dropLast ++ [{ activeFix with answers := A1 }]) =
        some ([activeFix].dropLast ++ [{ activeFix with answers := A1 }], .saved) ∧
      (A1.map (fun a => a.question_id)).Nodup ∧
      (∀ q ∈ moduleFix.questions, ∀ oid, formLookup [(1, 1), (2, 3)] q.id = some oid →
        q.id ∈ A1.map (fun a => a.question_id) ∧
        ∀ a ∈ A1, a.question_id = q.id →
          a.selected_option_id = (findOption optsFix oid).map (fun o => o.id) ∧
          a.is_correct =
            ((findOption optsFix oid).map (fun o => o.is_correct)).getD false)) :=
  ⟨rfl, rfl, by decide, by decide,
    C8_record_answers_idempotent moduleFix optsFix [(1, 1), (2, 3)] 9 2 11 3
      [activeFix] activeFix rfl rfl (by decide) (by decide)⟩

end VisionHub
